import Mathlib

/-!
Shallow embedding of `src/gmpy2_divmod.c` (gmpy2 divmod over the numeric
tower mpz / mpq / mpfr / mpc) and proofs about it.

Modelling conventions, used throughout:

* Arbitrary-precision integers (mpz) are `ℤ`; exact rationals (mpq) are `ℚ`.
* An mpfr number is `MPFRVal`: NaN, a signed infinity, a signed zero, or a
  finite value carried exactly as a rational.  The model works at unbounded
  precision, so finite arithmetic on `MPFRVal` is exact.
* The external MPFR primitives called by `GMPy_Real_DivMod` after
  `mpfr_clear_flags` (`mpfr_div` with rounding down, `mpfr_fms`, the
  rounding `mpfr_set`) are a parameter `MPFRPrims`: each returns the result
  value together with the floating-point flags it raises.  `mpfrExact` is
  the concrete instance implementing the documented MPFR special-value
  semantics (IEEE-754 style) with exact rational arithmetic; being exact it
  never raises underflow, overflow or inexact.
* A CPython object reaching the divmod entry points is a `PyVal`; the tags
  mirror the type checks `CHECK_MPZANY`, `PyIntOrLong_Check`, `IS_INTEGER`,
  `IS_RATIONAL`, `IS_REAL`, `IS_COMPLEX` of the source.
* A context is the record `Ctx` of sticky flags, trap-enable bits and the
  read-only marker; the trap bitmask of the source becomes one boolean per
  condition.
* Each per-kind function returns an `Out α`: the context after the call,
  a `DivModRes α` (the ok pair, a typed error standing for a raised Python
  exception, or the NotImplemented sentinel), and `leaked`, the number of
  objects allocated by the call that are neither released nor handed to the
  caller on that path (the reference-count ledger of the C code).
-/

/-- Error kinds raised by the divmod implementation, one per distinct
error call site kind in the source (`ZERO_ERROR`, `GMPY_DIVZERO`,
`GMPY_INVALID`, `GMPY_UNDERFLOW`, `GMPY_OVERFLOW`, `GMPY_INEXACT`, the two
`TYPE_ERROR` sites, the argument-count check, `SYSTEM_ERROR`). -/
inductive DMErr where
  | zeroDivision
  | divzeroTrap
  | invalidTrap
  | underflowTrap
  | overflowTrap
  | inexactTrap
  | typeErrorComplex
  | typeErrorUnsupported
  | typeErrorArgCount
  | systemError
deriving DecidableEq, Repr

/-- Result of one divmod call: the value pair, a raised error, or the
NotImplemented sentinel returned for operand types a layer does not accept. -/
inductive DivModRes (α : Type) where
  | ok : α → DivModRes α
  | error : DMErr → DivModRes α
  | notImpl : DivModRes α
deriving DecidableEq, Repr

/-- Functorial action on the ok payload, used when a dispatcher wraps the
typed result pair of a layer into the untyped result `DMValue`. -/
def DivModRes.map (f : α → β) : DivModRes α → DivModRes β
  | .ok a => .ok (f a)
  | .error e => .error e
  | .notImpl => .notImpl

/-- Context object (`CTXT_Object`): sticky exception flags, trap-enable
bits (the `traps` bitmask of the source, one boolean per condition) and the
read-only marker.  Precision, rounding mode and exponent range are absorbed
into the exact value model and the `MPFRPrims` parameter. -/
structure Ctx where
  divzero : Bool
  invalid : Bool
  underflow : Bool
  overflow : Bool
  inexact : Bool
  trapDivzero : Bool
  trapInvalid : Bool
  trapUnderflow : Bool
  trapOverflow : Bool
  trapInexact : Bool
  readonly : Bool
deriving DecidableEq, Repr

/-- Context with all flags clear, all traps disabled, writable. -/
def ctx0 : Ctx :=
  ⟨false, false, false, false, false, false, false, false, false, false, false⟩

/-- Per-call output of one layer algorithm: the context after the call, the
result, and the number of objects allocated by the call that are neither
released nor transferred to the caller on the taken path. -/
structure Out (α : Type) where
  ctx : Ctx
  res : DivModRes α
  leaked : ℕ
deriving DecidableEq, Repr

/-- Wrap the payload of a layer output, context and ledger unchanged. -/
def Out.map (f : α → β) (o : Out α) : Out β :=
  ⟨o.ctx, o.res.map f, o.leaked⟩

/-- An mpfr value: NaN, signed infinity, signed zero (`true` = negative
sign bit), or a finite value held exactly as a rational.  The finite
constructor is meant for nonzero values; every operation of the model that
produces zero produces a `zero` constructor. -/
inductive MPFRVal where
  | nan : MPFRVal
  | inf : Bool → MPFRVal
  | zero : Bool → MPFRVal
  | finite : ℚ → MPFRVal
deriving DecidableEq, Repr

/-- Model of `mpfr_nan_p`. -/
def MPFRVal.isNan : MPFRVal → Bool
  | .nan => true
  | _ => false

/-- Model of `mpfr_inf_p`. -/
def MPFRVal.isInf : MPFRVal → Bool
  | .inf _ => true
  | _ => false

/-- Model of `mpfr_zero_p`. -/
def MPFRVal.isZero : MPFRVal → Bool
  | .zero _ => true
  | .finite q => q = 0
  | _ => false

/-- Model of `mpfr_signbit` (`true` = negative).  The sign bit of NaN is
unspecified in MPFR; the source never branches on it. -/
def MPFRVal.signbit : MPFRVal → Bool
  | .nan => false
  | .inf s => s
  | .zero s => s
  | .finite q => q < 0

/-- Model of `mpfr_floor`: round to an integer toward minus infinity,
exact at the unbounded precision of the model.  The floor of a small
positive value is positive zero, matching MPFR. -/
def MPFRVal.floorv : MPFRVal → MPFRVal
  | .nan => .nan
  | .inf s => .inf s
  | .zero s => .zero s
  | .finite q => if ⌊q⌋ = 0 then .zero false else .finite (⌊q⌋ : ℚ)

/-- Model of `mpfr_neg`, which is exact in every rounding mode. -/
def MPFRVal.negv : MPFRVal → MPFRVal
  | .nan => .nan
  | .inf s => .inf (!s)
  | .zero s => .zero (!s)
  | .finite q => .finite (-q)

/-- The group of mpfr sticky flags the source merges and traps after the
computation (`mpfr_underflow_p`, `mpfr_overflow_p`, `mpfr_inexflag_p`). -/
structure RFlags where
  underflow : Bool
  overflow : Bool
  inexact : Bool
deriving DecidableEq, Repr

/-- No flag raised, the state right after `mpfr_clear_flags`. -/
def RFlags.clear : RFlags := ⟨false, false, false⟩

/-- Accumulation of the flags raised by two successive primitives. -/
def RFlags.union (a b : RFlags) : RFlags :=
  ⟨a.underflow || b.underflow, a.overflow || b.overflow, a.inexact || b.inexact⟩

/-- Interface of the external MPFR arithmetic primitives used by the Real
algorithm.  Each returns the computed value and the flags it raises:
`div_rndd` is `mpfr_div` with `MPFR_RNDD`, `fms_rnd` is `mpfr_fms` at the
context rounding mode, `set_rnd` is `mpfr_set` at the context rounding
mode (the rounding of x to the working precision). -/
structure MPFRPrims where
  div_rndd : MPFRVal → MPFRVal → MPFRVal × RFlags
  fms_rnd : MPFRVal → MPFRVal → MPFRVal → MPFRVal × RFlags
  set_rnd : MPFRVal → MPFRVal × RFlags

/-- Exact-model multiplication with the documented MPFR special-value
semantics: NaN propagates, infinity times zero is NaN, signs multiply. -/
def mpfrMul : MPFRVal → MPFRVal → MPFRVal
  | .nan, _ => .nan
  | _, .nan => .nan
  | .inf s, .inf t => .inf (xor s t)
  | .inf _, .zero _ => .nan
  | .zero _, .inf _ => .nan
  | .inf s, .finite q => if q = 0 then .nan else .inf (xor s (q < 0))
  | .finite q, .inf s => if q = 0 then .nan else .inf (xor (q < 0) s)
  | .zero s, .zero t => .zero (xor s t)
  | .zero s, .finite q => .zero (xor s (q < 0))
  | .finite q, .zero s => .zero (xor (q < 0) s)
  | .finite q, .finite r =>
      if q * r = 0 then .zero (xor (q < 0) (r < 0)) else .finite (q * r)

/-- Exact-model subtraction with the documented MPFR special-value
semantics.  An exact zero difference gets a positive sign, the convention
of every rounding mode except rounding down. -/
def mpfrSub : MPFRVal → MPFRVal → MPFRVal
  | .nan, _ => .nan
  | _, .nan => .nan
  | .inf s, .inf t => if s = t then .nan else .inf s
  | .inf s, .zero _ => .inf s
  | .inf s, .finite _ => .inf s
  | .zero _, .inf t => .inf (!t)
  | .finite _, .inf t => .inf (!t)
  | .zero s, .zero t => if s = t then .zero false else .zero s
  | .zero _, .finite q => if q = 0 then .zero false else .finite (-q)
  | .finite q, .zero _ => if q = 0 then .zero false else .finite q
  | .finite q, .finite r => if q = r then .zero false else .finite (q - r)

/-- Exact-model division with the documented MPFR special-value semantics:
NaN propagates, zero over zero and infinity over infinity are NaN, a
nonzero finite value over zero is a signed infinity (the MPFR
divide-by-zero convention), signs multiply. -/
def mpfrDiv : MPFRVal → MPFRVal → MPFRVal
  | .nan, _ => .nan
  | _, .nan => .nan
  | .inf _, .inf _ => .nan
  | .inf s, .zero t => .inf (xor s t)
  | .inf s, .finite q => if q = 0 then .inf s else .inf (xor s (q < 0))
  | .zero s, .inf t => .zero (xor s t)
  | .zero _, .zero _ => .nan
  | .zero s, .finite q => if q = 0 then .nan else .zero (xor s (q < 0))
  | .finite q, .inf t => .zero (xor (q < 0) t)
  | .finite q, .zero t => if q = 0 then .nan else .inf (xor (q < 0) t)
  | .finite q, .finite r =>
      if r = 0 then (if q = 0 then .nan else .inf (xor (q < 0) (r < 0)))
      else if q / r = 0 then .zero (xor (q < 0) (r < 0))
      else .finite (q / r)

/-- Concrete primitive instance: exact rational arithmetic at unbounded
precision with the documented MPFR special-value semantics.  Exact
operations raise no underflow, overflow or inexact flag, so every flag
field is clear. -/
def mpfrExact : MPFRPrims where
  div_rndd a b := (mpfrDiv a b, RFlags.clear)
  fms_rnd a b c := (mpfrSub (mpfrMul a b) c, RFlags.clear)
  set_rnd a := (a, RFlags.clear)

/-- Demonstration primitive instance for the flag machinery: an
implementation whose working precision makes every operation inexact, so
each primitive raises the inexact flag. -/
def mpfrInexactDemo : MPFRPrims where
  div_rndd a b := (mpfrDiv a b, ⟨false, false, true⟩)
  fms_rnd a b c := (mpfrSub (mpfrMul a b) c, ⟨false, false, true⟩)
  set_rnd a := (a, ⟨false, false, true⟩)

/-- Context with only the inexact trap enabled. -/
def ctxInexactTrap : Ctx :=
  ⟨false, false, false, false, false, false, false, false, false, true, false⟩

/-- A CPython operand as seen by the divmod entry points.  The tags mirror
the type tests of the source: `mpz` and `xmpz` satisfy `CHECK_MPZANY`,
`pyint` satisfies `PyIntOrLong_Check`, `mpq` and `fraction` are the extra
Rational types, `mpfr` and `pyfloat` the extra Real types, `mpc` and
`pycomplex` the extra Complex types; `nonNumeric` is any other object. -/
inductive PyVal where
  | mpz : ℤ → PyVal
  | xmpz : ℤ → PyVal
  | pyint : ℤ → PyVal
  | mpq : ℚ → PyVal
  | fraction : ℚ → PyVal
  | mpfr : MPFRVal → PyVal
  | pyfloat : MPFRVal → PyVal
  | mpc : MPFRVal → MPFRVal → PyVal
  | pycomplex : MPFRVal → MPFRVal → PyVal
  | nonNumeric : PyVal
deriving DecidableEq, Repr

/-- Model of `CHECK_MPZANY`: the object is an mpz or xmpz. -/
def CHECK_MPZANY : PyVal → Bool
  | .mpz _ => true
  | .xmpz _ => true
  | _ => false

/-- Model of `PyIntOrLong_Check`: the object is a native Python integer. -/
def PyIntOrLong_Check : PyVal → Bool
  | .pyint _ => true
  | _ => false

/-- Model of `IS_INTEGER`. -/
def IS_INTEGER (v : PyVal) : Bool :=
  CHECK_MPZANY v || PyIntOrLong_Check v

/-- Model of `IS_RATIONAL`. -/
def IS_RATIONAL (v : PyVal) : Bool :=
  IS_INTEGER v ||
    (match v with
     | .mpq _ => true
     | .fraction _ => true
     | _ => false)

/-- Model of `IS_REAL`. -/
def IS_REAL (v : PyVal) : Bool :=
  IS_RATIONAL v ||
    (match v with
     | .mpfr _ => true
     | .pyfloat _ => true
     | _ => false)

/-- Model of `IS_COMPLEX`. -/
def IS_COMPLEX (v : PyVal) : Bool :=
  IS_REAL v ||
    (match v with
     | .mpc _ _ => true
     | .pycomplex _ _ => true
     | _ => false)

/-- Integer value of an Integer-layer object; model of
`GMPy_MPZ_From_Integer_Temp` and of `mpz_set_PyIntOrLong` (which cannot
fail in the model, making the `SYSTEM_ERROR` path unreachable). -/
def intVal : PyVal → ℤ
  | .mpz z => z
  | .xmpz z => z
  | .pyint z => z
  | _ => 0

/-- Rational value of a Rational-layer object; model of
`GMPy_MPQ_From_Number_Temp`. -/
def ratVal : PyVal → ℚ
  | .mpq q => q
  | .fraction q => q
  | .mpz z => (z : ℚ)
  | .xmpz z => (z : ℚ)
  | .pyint z => (z : ℚ)
  | _ => 0

/-- Embedding of an exact rational into the mpfr value domain (exact at the
unbounded precision of the model). -/
def ratToMPFR (q : ℚ) : MPFRVal :=
  if q = 0 then .zero false else .finite q

/-- Mpfr value of a Real-layer object; model of
`GMPy_MPFR_From_Real_Temp`, exact at the unbounded precision of the
model. -/
def realVal : PyVal → MPFRVal
  | .mpfr v => v
  | .pyfloat v => v
  | v => ratToMPFR (ratVal v)

/-- Model of `PyLong_AsSIAndOverflow` succeeding: the value fits a signed
64-bit machine word. -/
def fitsSI (z : ℤ) : Bool :=
  -(2 ^ 63) ≤ z && z < 2 ^ 63

/-- Quotient of `mpz_cdiv_qr_ui` on divisor magnitude `m`: the quotient
rounded toward plus infinity, `ceil (n / m) = -floor ((-n) / m)`. -/
def cdivQ (n m : ℤ) : ℤ := -((-n).fdiv m)

/-- Remainder of `mpz_cdiv_qr_ui` on divisor magnitude `m`:
`n - ceil (n / m) * m`, which lies in `(-m, 0]` for `m > 0`. -/
def cdivR (n m : ℤ) : ℤ := n - cdivQ n m * m

/-- Model of `GMPy_Integer_DivMod` (source lines 53-164).  The blocks of
the source are sequential: the mpz-with-machine-word fast path, the
mpz-mpz path, the pyint-mpz path, the general converted path, and the
NotImplemented fall-through.  On the fall-through the source releases only
the result tuple, so the two preallocated mpz objects stay in the ledger. -/
def GMPy_Integer_DivMod (x y : PyVal) (ctx : Ctx) : Out (ℤ × ℤ) :=
  if CHECK_MPZANY x && PyIntOrLong_Check y then
    let vx := intVal x
    let vy := intVal y
    if !fitsSI vy then
      ⟨ctx, .ok (vx.fdiv vy, vx.fmod vy), 0⟩
    else if 0 < vy then
      ⟨ctx, .ok (vx.fdiv vy, vx.fmod vy), 0⟩
    else if vy = 0 then
      ⟨ctx, .error .zeroDivision, 0⟩
    else
      ⟨ctx, .ok (-(cdivQ vx (-vy)), cdivR vx (-vy)), 0⟩
  else if CHECK_MPZANY x && CHECK_MPZANY y then
    if intVal y = 0 then ⟨ctx, .error .zeroDivision, 0⟩
    else ⟨ctx, .ok ((intVal x).fdiv (intVal y), (intVal x).fmod (intVal y)), 0⟩
  else if CHECK_MPZANY y && PyIntOrLong_Check x then
    if intVal y = 0 then ⟨ctx, .error .zeroDivision, 0⟩
    else ⟨ctx, .ok ((intVal x).fdiv (intVal y), (intVal x).fmod (intVal y)), 0⟩
  else if IS_INTEGER x && IS_INTEGER y then
    if intVal y = 0 then ⟨ctx, .error .zeroDivision, 0⟩
    else ⟨ctx, .ok ((intVal x).fdiv (intVal y), (intVal x).fmod (intVal y)), 0⟩
  else
    ⟨ctx, .notImpl, 2⟩

/-- Model of `GMPy_Rational_DivMod` (source lines 184-238): exact quotient
as an mpq, floor of its numerator over its denominator as the integer
quotient, then the exact remainder `x - quo * y`.  On the NotImplemented
fall-through the source releases only the result tuple, leaving the
preallocated mpq and mpz objects in the ledger. -/
def GMPy_Rational_DivMod (x y : PyVal) (ctx : Ctx) : Out (ℤ × ℚ) :=
  if IS_RATIONAL x && IS_RATIONAL y then
    let tempx := ratVal x
    let tempy := ratVal y
    if tempy = 0 then ⟨ctx, .error .zeroDivision, 0⟩
    else
      let rem0 : ℚ := tempx / tempy
      let quo : ℤ := (rem0.num).fdiv (rem0.den : ℤ)
      ⟨ctx, .ok (quo, tempx - (quo : ℚ) * tempy), 0⟩
  else
    ⟨ctx, .notImpl, 2⟩

/-- Shared tail of the Real algorithm (source lines 330-344).
`SUBNORMALIZE` is modelled from the spec: it is subnormal renormalization,
and at the unbounded precision of the model no value is subnormal, so it is
the identity and raises nothing.  `MERGE_FLAGS` is modelled from the spec
(the macro body is not part of this file): the newly raised floating-point
flags (underflow, overflow, inexact) are merged into the sticky flag set of
the context.  Then the trap-enabled conditions are checked against the
raised flags in the fixed order underflow, overflow, inexact. -/
def finishReal (ctx : Ctx) (raised : RFlags) (quo rem : MPFRVal) :
    Out (MPFRVal × MPFRVal) :=
  let ctx2 : Ctx :=
    { ctx with
      underflow := ctx.underflow || raised.underflow,
      overflow := ctx.overflow || raised.overflow,
      inexact := ctx.inexact || raised.inexact }
  if raised.underflow && ctx2.trapUnderflow then ⟨ctx2, .error .underflowTrap, 0⟩
  else if raised.overflow && ctx2.trapOverflow then ⟨ctx2, .error .overflowTrap, 0⟩
  else if raised.inexact && ctx2.trapInexact then ⟨ctx2, .error .inexactTrap, 0⟩
  else ⟨ctx2, .ok (quo, rem), 0⟩

/-- Model of `GMPy_Real_DivMod` (source lines 260-362).  The decision
order follows the source: divisor-zero flag and trap first, then the
NaN-operand or infinite-dividend case, then the infinite-divisor table,
then the general computation `quo = floor (x / y)` rounded down and
`rem = -(fms quo y x)`, and finally the shared merge-and-trap tail.  On the
NotImplemented fall-through the source releases only the result tuple,
leaving the two preallocated mpfr objects in the ledger. -/
def GMPy_Real_DivMod (p : MPFRPrims) (x y : PyVal) (ctx : Ctx) :
    Out (MPFRVal × MPFRVal) :=
  if IS_REAL x && IS_REAL y then
    let tempx := realVal x
    let tempy := realVal y
    let ctx1 := if tempy.isZero then { ctx with divzero := true } else ctx
    if tempy.isZero && ctx.trapDivzero then ⟨ctx1, .error .divzeroTrap, 0⟩
    else if tempx.isNan || tempy.isNan || tempx.isInf then
      let ctx2 := { ctx1 with invalid := true }
      if ctx.trapInvalid then ⟨ctx2, .error .invalidTrap, 0⟩
      else finishReal ctx2 RFlags.clear .nan .nan
    else if tempy.isInf then
      let ctx2 := { ctx1 with invalid := true }
      if ctx.trapInvalid then ⟨ctx2, .error .invalidTrap, 0⟩
      else if tempx.isZero then
        finishReal ctx2 RFlags.clear (.zero tempy.signbit) (.zero tempy.signbit)
      else if tempx.signbit != tempy.signbit then
        finishReal ctx2 RFlags.clear (.finite (-1)) (.inf tempy.signbit)
      else
        let rv := p.set_rnd tempx
        finishReal ctx2 rv.2 (.zero false) rv.1
    else
      let d := p.div_rndd tempx tempy
      let quo := d.1.floorv
      let t := p.fms_rnd quo tempy tempx
      finishReal ctx1 (d.2.union t.2) quo t.1.negv
  else
    ⟨ctx, .notImpl, 2⟩

/-- Untyped result pair of the tower dispatchers: the payload kind depends
on the layer that ran. -/
inductive DMValue where
  | intPair : ℤ × ℤ → DMValue
  | ratPair : ℤ × ℚ → DMValue
  | realPair : MPFRVal × MPFRVal → DMValue
deriving DecidableEq, Repr

/-- Model of `GMPy_Complex_DivMod` (source lines 376-381): always the type
error saying floor and mod are undefined for complex numbers, with no
computation, no allocation and no flag change. -/
def GMPy_Complex_DivMod (x y : PyVal) (ctx : Ctx) : Out DMValue :=
  ⟨ctx, .error .typeErrorComplex, 0⟩

/-- Model of `GMPy_Number_DivMod` (source lines 393-410): the public
dispatcher, testing the layers in the fixed order Integer, Rational, Real,
Complex and raising a type error when the operands share no layer. -/
def GMPy_Number_DivMod (p : MPFRPrims) (x y : PyVal) (ctx : Ctx) :
    Out DMValue :=
  if IS_INTEGER x && IS_INTEGER y then
    (GMPy_Integer_DivMod x y ctx).map .intPair
  else if IS_RATIONAL x && IS_RATIONAL y then
    (GMPy_Rational_DivMod x y ctx).map .ratPair
  else if IS_REAL x && IS_REAL y then
    (GMPy_Real_DivMod p x y ctx).map .realPair
  else if IS_COMPLEX x && IS_COMPLEX y then
    GMPy_Complex_DivMod x y ctx
  else
    ⟨ctx, .error .typeErrorUnsupported, 0⟩

/-- Model of `GMPy_mpz_divmod_fast` (source lines 166-182): the slot
dispatcher, testing the layers in the same fixed order but returning the
NotImplemented sentinel when the operands share no layer, so that the host
runtime can retry with reflected operands. -/
def GMPy_mpz_divmod_fast (p : MPFRPrims) (x y : PyVal) (ctx : Ctx) :
    Out DMValue :=
  if IS_INTEGER x && IS_INTEGER y then
    (GMPy_Integer_DivMod x y ctx).map .intPair
  else if IS_RATIONAL x && IS_RATIONAL y then
    (GMPy_Rational_DivMod x y ctx).map .ratPair
  else if IS_REAL x && IS_REAL y then
    (GMPy_Real_DivMod p x y ctx).map .realPair
  else if IS_COMPLEX x && IS_COMPLEX y then
    GMPy_Complex_DivMod x y ctx
  else
    ⟨ctx, .notImpl, 0⟩

/-- Modelled from the spec: `GMPy_CTXT_Copy` (not part of this file)
clones a context into a fresh writable working copy with the same flag and
trap state. -/
def GMPy_CTXT_Copy (c : Ctx) : Ctx :=
  { c with readonly := false }

/-- Output of the context-bound entry point: the context object the caller
passed (after the call), the process-wide current context (after the
call), and the result. -/
structure CtxOut where
  selfAfter : Option Ctx
  currentAfter : Ctx
  res : DivModRes DMValue
deriving DecidableEq, Repr

/-- Model of `GMPy_Context_DivMod` (source lines 416-451).  `self` is the
bound context object (`none` when the receiver is not a context), `args`
the positional arguments, `cur` the process-wide current context.  A
read-only bound context is cloned into a writable copy that receives the
flag updates and is released after the call, so the bound context comes
back unchanged; a writable bound context is used directly; with no bound
context the current context is used directly. -/
def GMPy_Context_DivMod (p : MPFRPrims) (self : Option Ctx)
    (args : List PyVal) (cur : Ctx) : CtxOut :=
  match args with
  | [x, y] =>
    match self with
    | some c =>
      if c.readonly then
        let o := GMPy_Number_DivMod p x y (GMPy_CTXT_Copy c)
        ⟨some c, cur, o.res⟩
      else
        let o := GMPy_Number_DivMod p x y c
        ⟨some o.ctx, cur, o.res⟩
    | none =>
      let o := GMPy_Number_DivMod p x y cur
      ⟨none, o.ctx, o.res⟩
  | _ => ⟨self, cur, .error .typeErrorArgCount⟩

/-!
Arithmetic toolkit: characterization of floor division `Int.fdiv` /
`Int.fmod` (the model of `mpz_fdiv_qr`) and of the ceiling-division fast
path, shared by the claims about the Integer and Rational layers.
-/

theorem fmod_neg_bounds : ∀ (a : ℤ) {b : ℤ}, b < 0 → b < a.fmod b ∧ a.fmod b ≤ 0 := by
  intro a b hb
  obtain ⟨n, rfl⟩ : ∃ n : ℕ, b = Int.negSucc n := by
    cases b with
    | ofNat m => exact absurd hb (Int.ofNat_nonneg m).not_lt
    | negSucc n => exact ⟨n, rfl⟩
  match a with
  | 0 =>
    simp only [Int.zero_fmod]
    omega
  | Int.ofNat (m + 1) =>
    have h1 : m % (n + 1) < n + 1 := Nat.mod_lt _ (Nat.succ_pos n)
    simp only [Int.fmod, Int.subNatNat_eq_coe, Int.negSucc_eq, Nat.succ_eq_add_one]
    omega
  | Int.negSucc m =>
    have h1 : (m + 1) % (n + 1) < n + 1 := Nat.mod_lt _ (Nat.succ_pos n)
    simp only [Int.fmod, Int.negSucc_eq, Nat.succ_eq_add_one, Int.ofNat_eq_natCast]
    omega

theorem fmod_sign_bounds (x : ℤ) {y : ℤ} (hy : y ≠ 0) :
    (0 < y → 0 ≤ x.fmod y ∧ x.fmod y < y) ∧ (y < 0 → y < x.fmod y ∧ x.fmod y ≤ 0) := by
  constructor
  · intro h
    exact ⟨Int.fmod_nonneg' x h, Int.fmod_lt_of_pos x h⟩
  · intro h
    exact fmod_neg_bounds x h

theorem fdivmod_unique {x y q r : ℤ} (hy : y ≠ 0) (hid : x = y * q + r)
    (hpos : 0 < y → 0 ≤ r ∧ r < y) (hneg : y < 0 → y < r ∧ r ≤ 0) :
    x.fdiv y = q ∧ x.fmod y = r := by
  have hid2 : y * x.fdiv y + x.fmod y = x := Int.fdiv_add_fmod x y
  have hb := fmod_sign_bounds x hy
  have hkey : y * (x.fdiv y - q) = r - x.fmod y := by linarith [hid, hid2]
  have habs : |r - x.fmod y| < |y| := by
    rcases lt_or_gt_of_ne hy with h | h
    · have h1 := hb.2 h
      have h2 := hneg h
      rw [abs_of_neg h]
      rw [abs_lt]
      omega
    · have h1 := hb.1 h
      have h2 := hpos h
      rw [abs_of_pos h]
      rw [abs_lt]
      omega
  have hz : x.fdiv y - q = 0 := by
    by_contra hne
    have h1 : 1 ≤ |x.fdiv y - q| := Int.one_le_abs (by omega)
    have h2 : |y| * 1 ≤ |y| * |x.fdiv y - q| := by
      apply mul_le_mul_of_nonneg_left h1 (abs_nonneg y)
    rw [← abs_mul] at h2
    rw [hkey] at h2
    omega
  constructor
  · omega
  · have : x.fdiv y = q := by omega
    rw [this] at hid2
    omega

theorem fdiv_eq_ratFloor (x : ℤ) {y : ℤ} (hy : y ≠ 0) :
    x.fdiv y = ⌊(x : ℚ) / (y : ℚ)⌋ := by
  have hid : y * x.fdiv y + x.fmod y = x := Int.fdiv_add_fmod x y
  have hidq : (y : ℚ) * (x.fdiv y : ℚ) + (x.fmod y : ℚ) = (x : ℚ) := by
    exact_mod_cast hid
  have hb := fmod_sign_bounds x hy
  symm
  rw [Int.floor_eq_iff]
  rcases lt_or_gt_of_ne hy with h | h
  · have h1 := hb.2 h
    have hyq : (y : ℚ) < 0 := by exact_mod_cast h
    have hrl : (y : ℚ) < (x.fmod y : ℚ) := by exact_mod_cast h1.1
    have hru : (x.fmod y : ℚ) ≤ 0 := by exact_mod_cast h1.2
    constructor
    · rw [le_div_iff_of_neg hyq]
      push_cast
      nlinarith
    · rw [div_lt_iff_of_neg hyq]
      push_cast
      nlinarith
  · have h1 := hb.1 h
    have hyq : (0 : ℚ) < y := by exact_mod_cast h
    have hrl : (0 : ℚ) ≤ (x.fmod y : ℚ) := by exact_mod_cast h1.1
    have hru : (x.fmod y : ℚ) < (y : ℚ) := by exact_mod_cast h1.2
    constructor
    · rw [le_div_iff hyq]
      push_cast
      nlinarith
    · rw [div_lt_iff hyq]
      push_cast
      nlinarith

theorem cdiv_neg_eq_fdiv (x : ℤ) {y : ℤ} (hy : y < 0) :
    -(-((-x).fdiv (-y))) = x.fdiv y ∧ x - -((-x).fdiv (-y)) * (-y) = x.fmod y := by
  have hm : (0 : ℤ) < -y := by omega
  have hid : (-y) * (-x).fdiv (-y) + (-x).fmod (-y) = -x := Int.fdiv_add_fmod (-x) (-y)
  have h1 : 0 ≤ (-x).fmod (-y) := Int.fmod_nonneg' (-x) hm
  have h2 : (-x).fmod (-y) < -y := Int.fmod_lt_of_pos (-x) hm
  have := fdivmod_unique (x := x) (y := y) (q := (-x).fdiv (-y))
    (r := -((-x).fmod (-y))) (by omega) (by linarith [hid]) (by omega) (by omega)
  constructor
  · omega
  · have hr := this.2
    nlinarith [hid, this.1, hr]

theorem num_fdiv_den_eq_floor (q : ℚ) : q.num.fdiv (q.den : ℤ) = ⌊q⌋ := by
  have hd : (q.den : ℤ) ≠ 0 := by exact_mod_cast q.den_nz
  rw [fdiv_eq_ratFloor q.num hd]
  congr 1
  push_cast
  exact Rat.num_div_den q


theorem cdiv_fast_path_eq (x : ℤ) {y : ℤ} (hy : y < 0) :
    (-(cdivQ x (-y)), cdivR x (-y)) = (x.fdiv y, x.fmod y) := by
  have h := cdiv_neg_eq_fdiv x hy
  unfold cdivR cdivQ
  exact Prod.ext h.1 h.2

theorem fitsSI_zero : fitsSI 0 = true := by
  unfold fitsSI
  decide

theorem integer_divmod_word_eval (vx vy : ℤ) (ctx : Ctx) :
    (if !fitsSI vy then (⟨ctx, .ok (vx.fdiv vy, vx.fmod vy), 0⟩ : Out (ℤ × ℤ))
     else if 0 < vy then ⟨ctx, .ok (vx.fdiv vy, vx.fmod vy), 0⟩
     else if vy = 0 then ⟨ctx, .error .zeroDivision, 0⟩
     else ⟨ctx, .ok (-(cdivQ vx (-vy)), cdivR vx (-vy)), 0⟩) =
    if vy = 0 then ⟨ctx, .error .zeroDivision, 0⟩
    else ⟨ctx, .ok (vx.fdiv vy, vx.fmod vy), 0⟩ := by
  by_cases h0 : vy = 0
  · subst h0
    simp [fitsSI_zero]
  · by_cases hf : fitsSI vy
    · by_cases hp : 0 < vy
      · simp [h0, hf, hp]
      · have hneg : vy < 0 := by omega
        have hcd := cdiv_fast_path_eq vx hneg
        simp only [Prod.mk.injEq] at hcd
        simp [h0, hf, hp, hcd.1, hcd.2]
    · simp [h0, hf]

theorem integer_divmod_eval (x y : PyVal) (ctx : Ctx)
    (hx : IS_INTEGER x = true) (hy : IS_INTEGER y = true) :
    GMPy_Integer_DivMod x y ctx =
      if intVal y = 0 then ⟨ctx, .error .zeroDivision, 0⟩
      else ⟨ctx, .ok ((intVal x).fdiv (intVal y), (intVal x).fmod (intVal y)), 0⟩ := by
  by_cases hA : (CHECK_MPZANY x && PyIntOrLong_Check y) = true
  · simp only [GMPy_Integer_DivMod, hA, if_true]
    exact integer_divmod_word_eval (intVal x) (intVal y) ctx
  · rw [Bool.not_eq_true] at hA
    by_cases hB : (CHECK_MPZANY x && CHECK_MPZANY y) = true
    · simp [GMPy_Integer_DivMod, hA, hB]
    · rw [Bool.not_eq_true] at hB
      by_cases hC : (CHECK_MPZANY y && PyIntOrLong_Check x) = true
      · simp [GMPy_Integer_DivMod, hA, hB, hC]
      · rw [Bool.not_eq_true] at hC
        simp [GMPy_Integer_DivMod, hA, hB, hC, hx, hy]

/-- C1: for every pair of Integer operands, divmod fails with a
divide-by-zero error when y is zero, and otherwise returns the pair
(quotient, remainder) with quotient = floor (x / y), remainder =
x - quotient * y, the remainder zero or of the sign of y, and the
remainder smaller than y in absolute value. -/
theorem integer_divmod_floor_spec (x y : PyVal) (ctx : Ctx)
    (hx : IS_INTEGER x = true) (hy : IS_INTEGER y = true) :
    (intVal y = 0 →
      GMPy_Integer_DivMod x y ctx = ⟨ctx, .error .zeroDivision, 0⟩) ∧
    (intVal y ≠ 0 → ∃ q r : ℤ,
      GMPy_Integer_DivMod x y ctx = ⟨ctx, .ok (q, r), 0⟩ ∧
      q = ⌊(intVal x : ℚ) / (intVal y : ℚ)⌋ ∧
      r = intVal x - q * intVal y ∧
      (r = 0 ∨ r.sign = (intVal y).sign) ∧
      |r| < |intVal y|) := by
  rw [integer_divmod_eval x y ctx hx hy]
  constructor
  · intro h0
    simp [h0]
  · intro h0
    refine ⟨(intVal x).fdiv (intVal y), (intVal x).fmod (intVal y), by simp [h0], ?_, ?_, ?_, ?_⟩
    · exact fdiv_eq_ratFloor (intVal x) h0
    · rw [Int.fmod_def]
      ring
    · have hb := fmod_sign_bounds (intVal x) h0
      rcases lt_or_gt_of_ne h0 with h | h
      · have h1 := hb.2 h
        rcases eq_or_lt_of_le h1.2 with he | hlt
        · exact Or.inl he
        · right
          rw [Int.sign_eq_neg_one_of_neg hlt, Int.sign_eq_neg_one_of_neg h]
      · have h1 := hb.1 h
        rcases eq_or_lt_of_le h1.1 with he | hlt
        · exact Or.inl he.symm
        · right
          rw [Int.sign_eq_one_of_pos hlt, Int.sign_eq_one_of_pos h]
    · have hb := fmod_sign_bounds (intVal x) h0
      rcases lt_or_gt_of_ne h0 with h | h
      · have h1 := hb.2 h
        rw [abs_of_neg h]
        rw [abs_of_nonpos h1.2]
        omega
      · have h1 := hb.1 h
        rw [abs_of_pos h]
        rw [abs_of_nonneg h1.1]
        omega

/-- C1 witness: instantiation at divmod(-7, 2), plus the three concrete
floor-division examples of the claim evaluated on the model. -/
theorem integer_divmod_floor_spec_witness :
    ((intVal (PyVal.mpz 2) = 0 →
        GMPy_Integer_DivMod (PyVal.mpz (-7)) (PyVal.mpz 2) ctx0 =
          ⟨ctx0, .error .zeroDivision, 0⟩) ∧
      (intVal (PyVal.mpz 2) ≠ 0 → ∃ q r : ℤ,
        GMPy_Integer_DivMod (PyVal.mpz (-7)) (PyVal.mpz 2) ctx0 =
          ⟨ctx0, .ok (q, r), 0⟩ ∧
        q = ⌊(intVal (PyVal.mpz (-7)) : ℚ) / (intVal (PyVal.mpz 2) : ℚ)⌋ ∧
        r = intVal (PyVal.mpz (-7)) - q * intVal (PyVal.mpz 2) ∧
        (r = 0 ∨ r.sign = (intVal (PyVal.mpz 2)).sign) ∧
        |r| < |intVal (PyVal.mpz 2)|)) ∧
    GMPy_Integer_DivMod (PyVal.mpz (-7)) (PyVal.mpz 2) ctx0 =
      ⟨ctx0, .ok (-4, 1), 0⟩ ∧
    GMPy_Integer_DivMod (PyVal.mpz 7) (PyVal.mpz (-2)) ctx0 =
      ⟨ctx0, .ok (-4, -1), 0⟩ ∧
    GMPy_Integer_DivMod (PyVal.mpz (-7)) (PyVal.mpz (-2)) ctx0 =
      ⟨ctx0, .ok (3, -1), 0⟩ :=
  ⟨integer_divmod_floor_spec (PyVal.mpz (-7)) (PyVal.mpz 2) ctx0 (by decide) (by decide),
   by decide, by decide, by decide⟩

/-- C5: in the Integer fast path with a negative machine-word divisor, the
ceiling division of x by the magnitude of y followed by negation of the
quotient produces exactly the floor-division pair: the branch of
`GMPy_Integer_DivMod` taken for an mpz dividend and a negative word-sized
native integer divisor returns `(fdiv x y, fmod x y)`, the ceiling pair
equals that pair, and the quotient is the rational floor of x / y. -/
theorem neg_word_divisor_fast_path (x y : ℤ) (ctx : Ctx)
    (hneg : y < 0) (hfit : fitsSI y = true) :
    GMPy_Integer_DivMod (PyVal.mpz x) (PyVal.pyint y) ctx =
      ⟨ctx, .ok (x.fdiv y, x.fmod y), 0⟩ ∧
    (-(cdivQ x (-y)), cdivR x (-y)) = (x.fdiv y, x.fmod y) ∧
    x.fdiv y = ⌊(x : ℚ) / (y : ℚ)⌋ := by
  refine ⟨?_, cdiv_fast_path_eq x hneg, fdiv_eq_ratFloor x (by omega)⟩
  rw [integer_divmod_eval (PyVal.mpz x) (PyVal.pyint y) ctx rfl rfl]
  have h0 : y ≠ 0 := by omega
  simp [intVal, h0]

/-- C5 witness: the fast path at x = 7, y = -2 gives (-4, -1), the floor
pair. -/
theorem neg_word_divisor_fast_path_witness :
    (GMPy_Integer_DivMod (PyVal.mpz 7) (PyVal.pyint (-2)) ctx0 =
        ⟨ctx0, .ok ((7 : ℤ).fdiv (-2), (7 : ℤ).fmod (-2)), 0⟩ ∧
      (-(cdivQ 7 (-(-2))), cdivR 7 (-(-2))) = ((7 : ℤ).fdiv (-2), (7 : ℤ).fmod (-2)) ∧
      (7 : ℤ).fdiv (-2) = ⌊((7 : ℤ) : ℚ) / (((-2 : ℤ)) : ℚ)⌋) ∧
    GMPy_Integer_DivMod (PyVal.mpz 7) (PyVal.pyint (-2)) ctx0 =
      ⟨ctx0, .ok (-4, -1), 0⟩ :=
  ⟨neg_word_divisor_fast_path 7 (-2) ctx0 (by decide) (by decide), by decide⟩

/-- C4: for every pair of Rational operands, divmod fails with a
divide-by-zero error when y is zero, and otherwise returns an Integer
quotient equal to floor (x / y) and the exact Rational remainder
x - quotient * y, so that x = quotient * y + remainder holds exactly. -/
theorem rational_divmod_exact_spec (x y : PyVal) (ctx : Ctx)
    (hx : IS_RATIONAL x = true) (hy : IS_RATIONAL y = true) :
    (ratVal y = 0 →
      GMPy_Rational_DivMod x y ctx = ⟨ctx, .error .zeroDivision, 0⟩) ∧
    (ratVal y ≠ 0 → ∃ (q : ℤ) (r : ℚ),
      GMPy_Rational_DivMod x y ctx = ⟨ctx, .ok (q, r), 0⟩ ∧
      q = ⌊ratVal x / ratVal y⌋ ∧
      r = ratVal x - (q : ℚ) * ratVal y ∧
      ratVal x = (q : ℚ) * ratVal y + r) := by
  constructor
  · intro h0
    simp [GMPy_Rational_DivMod, hx, hy, h0]
  · intro h0
    refine ⟨⌊ratVal x / ratVal y⌋,
      ratVal x - (⌊ratVal x / ratVal y⌋ : ℚ) * ratVal y, ?_, rfl, rfl, by ring⟩
    simp [GMPy_Rational_DivMod, hx, hy, h0, num_fdiv_den_eq_floor]

/-- C4 witness: instantiation at divmod(7/2, 1/3), together with the
concrete result (10, 1/6) of the claim. -/
theorem rational_divmod_exact_spec_witness :
    ((1 : ℚ)/3 ≠ 0 ∧ ∃ (q : ℤ) (r : ℚ),
      GMPy_Rational_DivMod (PyVal.mpq (7/2)) (PyVal.mpq (1/3)) ctx0 =
        ⟨ctx0, .ok (q, r), 0⟩ ∧
      q = ⌊ratVal (PyVal.mpq (7/2)) / ratVal (PyVal.mpq (1/3))⌋ ∧
      r = ratVal (PyVal.mpq (7/2)) - (q : ℚ) * ratVal (PyVal.mpq (1/3))) ∧
    GMPy_Rational_DivMod (PyVal.mpq (7/2)) (PyVal.mpq (1/3)) ctx0 =
      ⟨ctx0, .ok ((10 : ℤ), (1 : ℚ)/6), 0⟩ := by
  have h3 : ((1 : ℚ)/3) ≠ 0 := by norm_num
  have h0 : ratVal (PyVal.mpq ((1 : ℚ)/3)) ≠ 0 := by
    simp only [ratVal]
    exact h3
  have hmain := (rational_divmod_exact_spec (PyVal.mpq (7/2)) (PyVal.mpq (1/3)) ctx0
    rfl rfl).2 h0
  obtain ⟨q, r, heq, hq, hr, hid⟩ := hmain
  refine ⟨⟨h3, q, r, heq, hq, hr⟩, ?_⟩
  have hq10 : q = 10 := by
    rw [hq]
    simp only [ratVal]
    norm_num
  have hr16 : r = (1 : ℚ)/6 := by
    rw [hr, hq10]
    simp only [ratVal]
    norm_num
  rw [heq, hq10, hr16]

/-- C9: the Complex layer always fails with the type error saying floor
and mod are undefined for complex values, for every operand pair and every
context, with no flag change and nothing allocated. -/
theorem complex_divmod_always_type_error (x y : PyVal) (ctx : Ctx) :
    GMPy_Complex_DivMod x y ctx = ⟨ctx, .error .typeErrorComplex, 0⟩ :=
  rfl

theorem intLayer_sub_rat {v : PyVal} (h : IS_INTEGER v = true) :
    IS_RATIONAL v = true := by
  simp [IS_RATIONAL, h]

theorem ratLayer_sub_real {v : PyVal} (h : IS_RATIONAL v = true) :
    IS_REAL v = true := by
  simp [IS_REAL, h]

theorem realLayer_sub_complex {v : PyVal} (h : IS_REAL v = true) :
    IS_COMPLEX v = true := by
  simp [IS_COMPLEX, h]

theorem band_false_step (f g : PyVal → Bool) (mono : ∀ v, f v = true → g v = true)
    {x y : PyVal} (h : (g x && g y) = false) : (f x && f y) = false := by
  cases hx : f x
  · simp
  · cases hy : f y
    · simp
    · have h1 := mono x hx
      have h2 := mono y hy
      rw [h1, h2] at h
      simp at h

/-- C7: the tower dispatchers test the operand pair in the fixed order
Integer, Rational, Real, Complex and delegate to the first layer both
operands satisfy; when the operands share no layer at all, the slot
dispatcher `GMPy_mpz_divmod_fast` returns the NotImplemented sentinel,
which is distinct from every error, so the host can retry with reflected
operands. -/
theorem tower_dispatch_order_sentinel (p : MPFRPrims) (x y : PyVal) (ctx : Ctx) :
    ((IS_INTEGER x && IS_INTEGER y) = true →
      GMPy_mpz_divmod_fast p x y ctx = (GMPy_Integer_DivMod x y ctx).map .intPair ∧
      GMPy_Number_DivMod p x y ctx = (GMPy_Integer_DivMod x y ctx).map .intPair) ∧
    ((IS_INTEGER x && IS_INTEGER y) = false →
      (IS_RATIONAL x && IS_RATIONAL y) = true →
      GMPy_mpz_divmod_fast p x y ctx = (GMPy_Rational_DivMod x y ctx).map .ratPair ∧
      GMPy_Number_DivMod p x y ctx = (GMPy_Rational_DivMod x y ctx).map .ratPair) ∧
    ((IS_RATIONAL x && IS_RATIONAL y) = false →
      (IS_REAL x && IS_REAL y) = true →
      GMPy_mpz_divmod_fast p x y ctx = (GMPy_Real_DivMod p x y ctx).map .realPair ∧
      GMPy_Number_DivMod p x y ctx = (GMPy_Real_DivMod p x y ctx).map .realPair) ∧
    ((IS_REAL x && IS_REAL y) = false →
      (IS_COMPLEX x && IS_COMPLEX y) = true →
      GMPy_mpz_divmod_fast p x y ctx = GMPy_Complex_DivMod x y ctx ∧
      GMPy_Number_DivMod p x y ctx = GMPy_Complex_DivMod x y ctx) ∧
    ((IS_COMPLEX x && IS_COMPLEX y) = false →
      GMPy_mpz_divmod_fast p x y ctx = ⟨ctx, .notImpl, 0⟩ ∧
      ∀ e, (DivModRes.notImpl : DivModRes DMValue) ≠ .error e) := by
  refine ⟨?_, ?_, ?_, ?_, ?_⟩
  · intro h
    constructor <;> simp [GMPy_mpz_divmod_fast, GMPy_Number_DivMod, h]
  · intro h1 h2
    constructor <;> simp [GMPy_mpz_divmod_fast, GMPy_Number_DivMod, h1, h2]
  · intro h1 h2
    have hI : (IS_INTEGER x && IS_INTEGER y) = false :=
      band_false_step IS_INTEGER IS_RATIONAL (fun v hv => intLayer_sub_rat hv) h1
    constructor <;> simp [GMPy_mpz_divmod_fast, GMPy_Number_DivMod, hI, h1, h2]
  · intro h1 h2
    have hR : (IS_RATIONAL x && IS_RATIONAL y) = false :=
      band_false_step IS_RATIONAL IS_REAL (fun v hv => ratLayer_sub_real hv) h1
    have hI : (IS_INTEGER x && IS_INTEGER y) = false :=
      band_false_step IS_INTEGER IS_RATIONAL (fun v hv => intLayer_sub_rat hv) hR
    constructor <;> simp [GMPy_mpz_divmod_fast, GMPy_Number_DivMod, hI, hR, h1, h2]
  · intro h
    have hRe : (IS_REAL x && IS_REAL y) = false :=
      band_false_step IS_REAL IS_COMPLEX (fun v hv => realLayer_sub_complex hv) h
    have hR : (IS_RATIONAL x && IS_RATIONAL y) = false :=
      band_false_step IS_RATIONAL IS_REAL (fun v hv => ratLayer_sub_real hv) hRe
    have hI : (IS_INTEGER x && IS_INTEGER y) = false :=
      band_false_step IS_INTEGER IS_RATIONAL (fun v hv => intLayer_sub_rat hv) hR
    refine ⟨by simp [GMPy_mpz_divmod_fast, hI, hR, hRe, h], ?_⟩
    intro e
    simp
/-- C8: the context-bound entry point never mutates a read-only bound
context: the writable clone receives the flag updates and the caller sees
the bound context and the current context unchanged; a writable bound
context is used directly, so its final state is the context mutated by the
dispatched computation. -/
theorem context_divmod_readonly_copy (p : MPFRPrims) (c : Ctx) (x y : PyVal)
    (cur : Ctx) :
    (c.readonly = true →
      GMPy_Context_DivMod p (some c) [x, y] cur =
        ⟨some c, cur, (GMPy_Number_DivMod p x y (GMPy_CTXT_Copy c)).res⟩ ∧
      (GMPy_CTXT_Copy c).readonly = false ∧
      (GMPy_CTXT_Copy c).divzero = c.divzero ∧
      (GMPy_CTXT_Copy c).invalid = c.invalid ∧
      (GMPy_CTXT_Copy c).underflow = c.underflow ∧
      (GMPy_CTXT_Copy c).overflow = c.overflow ∧
      (GMPy_CTXT_Copy c).inexact = c.inexact ∧
      (GMPy_CTXT_Copy c).trapDivzero = c.trapDivzero ∧
      (GMPy_CTXT_Copy c).trapInvalid = c.trapInvalid ∧
      (GMPy_CTXT_Copy c).trapUnderflow = c.trapUnderflow ∧
      (GMPy_CTXT_Copy c).trapOverflow = c.trapOverflow ∧
      (GMPy_CTXT_Copy c).trapInexact = c.trapInexact) ∧
    (c.readonly = false →
      GMPy_Context_DivMod p (some c) [x, y] cur =
        ⟨some (GMPy_Number_DivMod p x y c).ctx, cur,
          (GMPy_Number_DivMod p x y c).res⟩) := by
  constructor
  · intro h
    refine ⟨?_, rfl, rfl, rfl, rfl, rfl, rfl, rfl, rfl, rfl, rfl, rfl⟩
    simp [GMPy_Context_DivMod, h]
  · intro h
    simp [GMPy_Context_DivMod, h]

/-- C8 witness: a read-only context with the inexact trap set comes back
unchanged from divmod(1, 0) even though the computation errors, and a
writable context is threaded through directly. -/
theorem context_divmod_readonly_copy_witness :
    (GMPy_Context_DivMod mpfrExact
        (some ⟨false, false, false, false, false, false, false, false, false, false, true⟩)
        [PyVal.mpz 1, PyVal.mpz 0] ctx0 =
      ⟨some ⟨false, false, false, false, false, false, false, false, false, false, true⟩,
        ctx0,
        (GMPy_Number_DivMod mpfrExact (PyVal.mpz 1) (PyVal.mpz 0)
          (GMPy_CTXT_Copy
            ⟨false, false, false, false, false, false, false, false, false, false, true⟩)).res⟩) ∧
    (GMPy_Context_DivMod mpfrExact (some ctx0) [PyVal.mpz 1, PyVal.mpz 0] ctx0 =
      ⟨some (GMPy_Number_DivMod mpfrExact (PyVal.mpz 1) (PyVal.mpz 0) ctx0).ctx, ctx0,
        (GMPy_Number_DivMod mpfrExact (PyVal.mpz 1) (PyVal.mpz 0) ctx0).res⟩) :=
  ⟨((context_divmod_readonly_copy mpfrExact
      ⟨false, false, false, false, false, false, false, false, false, false, true⟩
      (PyVal.mpz 1) (PyVal.mpz 0) ctx0).1 rfl).1,
   (context_divmod_readonly_copy mpfrExact ctx0
      (PyVal.mpz 1) (PyVal.mpz 0) ctx0).2 rfl⟩

/-- C10: on the NotImplemented fall-through each per-kind algorithm does
return the sentinel with the context flags untouched, but the source
releases only the result tuple (lines 162, 228 and 352), so the two
preallocated result value objects stay unreleased: the ledger of each call
below is 2, not the 0 that full release would give. -/
theorem per_kind_notimpl_leak :
    GMPy_Integer_DivMod (PyVal.mpz 1) (PyVal.mpfr .nan) ctx0 =
      ⟨ctx0, .notImpl, 2⟩ ∧
    GMPy_Rational_DivMod (PyVal.mpq 1) (PyVal.mpfr .nan) ctx0 =
      ⟨ctx0, .notImpl, 2⟩ ∧
    GMPy_Real_DivMod mpfrExact (PyVal.mpfr (.finite 1)) (PyVal.mpc .nan .nan) ctx0 =
      ⟨ctx0, .notImpl, 2⟩ ∧
    (2 : ℕ) ≠ 0 := by
  refine ⟨?_, ?_, ?_, by decide⟩ <;> rfl

theorem finishReal_clear (ctx : Ctx) (q r : MPFRVal) :
    finishReal ctx RFlags.clear q r = ⟨ctx, .ok (q, r), 0⟩ := by
  simp [finishReal, RFlags.clear]

theorem isZero_of_isInf {v : MPFRVal} (h : v.isInf = true) : v.isZero = false := by
  cases v <;> simp_all [MPFRVal.isInf, MPFRVal.isZero]

theorem isNan_of_isInf {v : MPFRVal} (h : v.isInf = true) : v.isNan = false := by
  cases v <;> simp_all [MPFRVal.isInf, MPFRVal.isNan]

/-- C2: Real divmod under an untrapped context.  A NaN operand or an
infinite dividend raises the invalid flag and yields the NaN pair.  An
infinite divisor with a finite dividend raises the invalid flag and yields:
the signed-zero pair carrying the sign of y when x is zero, the pair
(-1, infinity with the sign of y) when the signs differ, and the pair
(signed zero quotient, x rounded per context) when the signs agree. -/
theorem real_divmod_special_values (p : MPFRPrims) (x y : PyVal) (ctx : Ctx)
    (hx : IS_REAL x = true) (hy : IS_REAL y = true)
    (h1 : ctx.trapDivzero = false) (h2 : ctx.trapInvalid = false)
    (h3 : ctx.trapUnderflow = false) (h4 : ctx.trapOverflow = false)
    (h5 : ctx.trapInexact = false) :
    (((realVal x).isNan || (realVal y).isNan || (realVal x).isInf) = true →
      (GMPy_Real_DivMod p x y ctx).ctx.invalid = true ∧
      (GMPy_Real_DivMod p x y ctx).res = .ok (.nan, .nan)) ∧
    ((realVal y).isInf = true → (realVal x).isNan = false →
      (realVal x).isInf = false →
      (GMPy_Real_DivMod p x y ctx).ctx.invalid = true ∧
      ((realVal x).isZero = true →
        (GMPy_Real_DivMod p x y ctx).res =
          .ok (.zero (realVal y).signbit, .zero (realVal y).signbit)) ∧
      ((realVal x).isZero = false →
        (realVal x).signbit ≠ (realVal y).signbit →
        (GMPy_Real_DivMod p x y ctx).res =
          .ok (.finite (-1), .inf (realVal y).signbit)) ∧
      ((realVal x).isZero = false →
        (realVal x).signbit = (realVal y).signbit →
        (GMPy_Real_DivMod p x y ctx).res =
          .ok (.zero false, (p.set_rnd (realVal x)).1))) := by
  constructor
  · intro hcase
    by_cases hz : (realVal y).isZero = true <;>
      simp [GMPy_Real_DivMod, hx, hy, hz, h1, h2, h3, h4, h5, hcase, finishReal,
        RFlags.clear]
  · intro hyInf hxNan hxInf
    have hyz : (realVal y).isZero = false := isZero_of_isInf hyInf
    have hyn : (realVal y).isNan = false := isNan_of_isInf hyInf
    refine ⟨?_, ?_, ?_, ?_⟩
    · by_cases hxz : (realVal x).isZero = true <;>
        by_cases hsb : (realVal x).signbit = (realVal y).signbit <;>
        simp [GMPy_Real_DivMod, hx, hy, hyz, hyn, hxNan, hxInf, hyInf, h1, h2,
          h3, h4, h5, hxz, hsb, finishReal, RFlags.clear]
    · intro hxz
      simp [GMPy_Real_DivMod, hx, hy, hyz, hyn, hxNan, hxInf, hyInf, h1, h2,
        h3, h4, h5, hxz, finishReal, RFlags.clear]
    · intro hxz hsb
      simp [GMPy_Real_DivMod, hx, hy, hyz, hyn, hxNan, hxInf, hyInf, h1, h2,
        h3, h4, h5, hxz, hsb, finishReal, RFlags.clear]
    · intro hxz hsb
      simp [GMPy_Real_DivMod, hx, hy, hyz, hyn, hxNan, hxInf, hyInf, h1, h2,
        h3, h4, h5, hxz, hsb, finishReal, RFlags.clear]

/-- C2 witness: NaN dividend gives the flagged NaN pair; a finite dividend
with an infinite divisor gives (-1, -infinity) on a sign mismatch and
(+0, x) on matching signs, under the all-clear untrapped context. -/
theorem real_divmod_special_values_witness :
    ((GMPy_Real_DivMod mpfrExact (PyVal.mpfr .nan) (PyVal.mpfr (.finite 1)) ctx0).ctx.invalid
        = true ∧
      (GMPy_Real_DivMod mpfrExact (PyVal.mpfr .nan) (PyVal.mpfr (.finite 1)) ctx0).res
        = .ok (.nan, .nan)) ∧
    (GMPy_Real_DivMod mpfrExact (PyVal.mpfr (.finite 5)) (PyVal.mpfr (.inf true)) ctx0).res
      = .ok (.finite (-1), .inf true) ∧
    (GMPy_Real_DivMod mpfrExact (PyVal.mpfr (.finite 5)) (PyVal.mpfr (.inf false)) ctx0).res
      = .ok (.zero false, .finite 5) :=
  ⟨(real_divmod_special_values mpfrExact (PyVal.mpfr .nan) (PyVal.mpfr (.finite 1)) ctx0
      rfl rfl rfl rfl rfl rfl rfl).1 (by decide),
   by
    have h := (real_divmod_special_values mpfrExact (PyVal.mpfr (.finite 5))
      (PyVal.mpfr (.inf true)) ctx0 rfl rfl rfl rfl rfl rfl rfl).2
      (by decide) (by decide) (by decide)
    exact h.2.2.1 (by decide) (by decide),
   by
    have h := (real_divmod_special_values mpfrExact (PyVal.mpfr (.finite 5))
      (PyVal.mpfr (.inf false)) ctx0 rfl rfl rfl rfl rfl rfl rfl).2
      (by decide) (by decide) (by decide)
    exact h.2.2.2 (by decide) (by decide)⟩

/-- C3 counterexample: divmod(5.0, 0.0) under the all-clear untrapped
context does set the divide-by-zero flag, but the fall-through computation
divides by zero in the general branch, so the returned pair is
(+infinity, NaN), not the (NaN, NaN) the claim states. -/
theorem real_divmod_zero_divisor_counterexample :
    (GMPy_Real_DivMod mpfrExact (PyVal.mpfr (.finite 5))
        (PyVal.mpfr (.zero false)) ctx0).ctx.divzero = true ∧
    (GMPy_Real_DivMod mpfrExact (PyVal.mpfr (.finite 5))
        (PyVal.mpfr (.zero false)) ctx0).res = .ok (.inf false, .nan) ∧
    (GMPy_Real_DivMod mpfrExact (PyVal.mpfr (.finite 5))
        (PyVal.mpfr (.zero false)) ctx0).res ≠ .ok (.nan, .nan) := by
  refine ⟨by decide, by decide, by decide⟩

/-- C3 amended: Real divmod with a zero divisor and a finite nonzero
non-NaN dividend sets the divide-by-zero flag; with the divide-by-zero
trap enabled the call fails immediately; otherwise computation continues
into the general branch, where the division by zero yields the quotient
infinity with the product sign of the operands and the fused
multiply-subtract on that infinity yields a NaN remainder. -/
theorem real_divmod_zero_divisor_amended (q : ℚ) (sy : Bool) (ctx : Ctx)
    (hq : q ≠ 0) :
    (GMPy_Real_DivMod mpfrExact (PyVal.mpfr (.finite q))
        (PyVal.mpfr (.zero sy)) ctx).ctx.divzero = true ∧
    (ctx.trapDivzero = true →
      (GMPy_Real_DivMod mpfrExact (PyVal.mpfr (.finite q))
          (PyVal.mpfr (.zero sy)) ctx).res = .error .divzeroTrap) ∧
    (ctx.trapDivzero = false →
      (GMPy_Real_DivMod mpfrExact (PyVal.mpfr (.finite q))
          (PyVal.mpfr (.zero sy)) ctx).res =
        .ok (.inf (xor (decide (q < 0)) sy), .nan)) := by
  have hz : (MPFRVal.finite q).isZero = false := by
    simp [MPFRVal.isZero, hq]
  by_cases ht : ctx.trapDivzero = true
  · refine ⟨?_, fun _ => ?_, fun hf => absurd ht (by simp [hf])⟩ <;>
      simp [GMPy_Real_DivMod, realVal, ht, MPFRVal.isZero, IS_REAL, IS_RATIONAL,
        IS_INTEGER, CHECK_MPZANY, PyIntOrLong_Check]
  · rw [Bool.not_eq_true] at ht
    refine ⟨?_, fun hf => absurd hf (by simp [ht]), fun _ => ?_⟩ <;>
      simp [GMPy_Real_DivMod, realVal, ht, hz, MPFRVal.isZero, MPFRVal.isNan,
        MPFRVal.isInf, mpfrExact, mpfrDiv, mpfrMul, mpfrSub, MPFRVal.floorv,
        MPFRVal.negv, hq, finishReal, RFlags.clear, RFlags.union, IS_REAL,
        IS_RATIONAL, IS_INTEGER, CHECK_MPZANY, PyIntOrLong_Check]

/-- C3 amended witness: divmod(5.0, 0.0) untrapped returns
(+infinity, NaN) with the divide-by-zero flag set. -/
theorem real_divmod_zero_divisor_amended_witness :
    (GMPy_Real_DivMod mpfrExact (PyVal.mpfr (.finite 5))
        (PyVal.mpfr (.zero false)) ctx0).ctx.divzero = true ∧
    (ctx0.trapDivzero = false →
      (GMPy_Real_DivMod mpfrExact (PyVal.mpfr (.finite 5))
          (PyVal.mpfr (.zero false)) ctx0).res =
        .ok (.inf (xor (decide ((5 : ℚ) < 0)) false), .nan)) :=
  ⟨(real_divmod_zero_divisor_amended 5 false ctx0 (by norm_num)).1,
   (real_divmod_zero_divisor_amended 5 false ctx0 (by norm_num)).2.2⟩

/-- C6: after the numeric result is computed, newly raised floating-point
flags are merged sticky (OR) into the context while the divide-by-zero and
invalid flags are left as they were; the trap-enabled conditions are then
checked against the raised flags in the fixed priority underflow, then
overflow, then inexact, and the first enabled one turns the call into the
matching error, discarding the computed pair but keeping every merged
flag; and the general finite branch of Real divmod routes its computed
pair and accumulated flags through exactly this tail. -/
theorem real_divmod_flag_merge_priority (p : MPFRPrims) (x y : PyVal)
    (ctx : Ctx) (raised : RFlags) (quo rem : MPFRVal)
    (hx : IS_REAL x = true) (hy : IS_REAL y = true)
    (hn1 : (realVal x).isNan = false) (hn2 : (realVal y).isNan = false)
    (hn3 : (realVal x).isInf = false) (hn4 : (realVal y).isInf = false)
    (hz : ((realVal y).isZero && ctx.trapDivzero) = false) :
    ((finishReal ctx raised quo rem).ctx.underflow =
        (ctx.underflow || raised.underflow) ∧
      (finishReal ctx raised quo rem).ctx.overflow =
        (ctx.overflow || raised.overflow) ∧
      (finishReal ctx raised quo rem).ctx.inexact =
        (ctx.inexact || raised.inexact) ∧
      (finishReal ctx raised quo rem).ctx.divzero = ctx.divzero ∧
      (finishReal ctx raised quo rem).ctx.invalid = ctx.invalid) ∧
    ((finishReal ctx raised quo rem).res = .error .underflowTrap ↔
      raised.underflow = true ∧ ctx.trapUnderflow = true) ∧
    ((finishReal ctx raised quo rem).res = .error .overflowTrap ↔
      raised.overflow = true ∧ ctx.trapOverflow = true ∧
      ¬(raised.underflow = true ∧ ctx.trapUnderflow = true)) ∧
    ((finishReal ctx raised quo rem).res = .error .inexactTrap ↔
      raised.inexact = true ∧ ctx.trapInexact = true ∧
      ¬(raised.underflow = true ∧ ctx.trapUnderflow = true) ∧
      ¬(raised.overflow = true ∧ ctx.trapOverflow = true)) ∧
    ((finishReal ctx raised quo rem).res = .ok (quo, rem) ↔
      ¬(raised.underflow = true ∧ ctx.trapUnderflow = true) ∧
      ¬(raised.overflow = true ∧ ctx.trapOverflow = true) ∧
      ¬(raised.inexact = true ∧ ctx.trapInexact = true)) ∧
    GMPy_Real_DivMod p x y ctx =
      finishReal (if (realVal y).isZero then { ctx with divzero := true } else ctx)
        ((p.div_rndd (realVal x) (realVal y)).2.union
          (p.fms_rnd ((p.div_rndd (realVal x) (realVal y)).1.floorv)
            (realVal y) (realVal x)).2)
        ((p.div_rndd (realVal x) (realVal y)).1.floorv)
        ((p.fms_rnd ((p.div_rndd (realVal x) (realVal y)).1.floorv)
          (realVal y) (realVal x)).1.negv) := by
  have hmain :
      ((finishReal ctx raised quo rem).ctx.underflow =
          (ctx.underflow || raised.underflow) ∧
        (finishReal ctx raised quo rem).ctx.overflow =
          (ctx.overflow || raised.overflow) ∧
        (finishReal ctx raised quo rem).ctx.inexact =
          (ctx.inexact || raised.inexact) ∧
        (finishReal ctx raised quo rem).ctx.divzero = ctx.divzero ∧
        (finishReal ctx raised quo rem).ctx.invalid = ctx.invalid) ∧
      ((finishReal ctx raised quo rem).res = .error .underflowTrap ↔
        raised.underflow = true ∧ ctx.trapUnderflow = true) ∧
      ((finishReal ctx raised quo rem).res = .error .overflowTrap ↔
        raised.overflow = true ∧ ctx.trapOverflow = true ∧
        ¬(raised.underflow = true ∧ ctx.trapUnderflow = true)) ∧
      ((finishReal ctx raised quo rem).res = .error .inexactTrap ↔
        raised.inexact = true ∧ ctx.trapInexact = true ∧
        ¬(raised.underflow = true ∧ ctx.trapUnderflow = true) ∧
        ¬(raised.overflow = true ∧ ctx.trapOverflow = true)) ∧
      ((finishReal ctx raised quo rem).res = .ok (quo, rem) ↔
        ¬(raised.underflow = true ∧ ctx.trapUnderflow = true) ∧
        ¬(raised.overflow = true ∧ ctx.trapOverflow = true) ∧
        ¬(raised.inexact = true ∧ ctx.trapInexact = true)) := by
    obtain ⟨cdz, cin, cun, cov, cix, tdz, tin, tun, tov, tix, ro⟩ := ctx
    obtain ⟨ru, rv, ri⟩ := raised
    cases ru <;> cases rv <;> cases ri <;> cases tun <;> cases tov <;> cases tix <;>
      simp [finishReal]
  refine ⟨hmain.1, hmain.2.1, hmain.2.2.1, hmain.2.2.2.1, hmain.2.2.2.2, ?_⟩
  simp only [GMPy_Real_DivMod, hx, hy, Bool.and_self, if_true, hn1, hn2, hn3, hn4,
    hz, Bool.or_self, Bool.false_or, Bool.or_false, if_false, Bool.false_eq_true]

/-- C6 witness: with the inexact flag raised and only the inexact trap
enabled, the tail fails with the inexact error while the sticky inexact
flag stays set, and divmod(1.0, 2.0) on the always-inexact primitives
routes through that tail. -/
theorem real_divmod_flag_merge_priority_witness :
    (finishReal ctxInexactTrap ⟨false, false, true⟩ .nan .nan).res =
      .error .inexactTrap ∧
    (finishReal ctxInexactTrap ⟨false, false, true⟩ .nan .nan).ctx.inexact = true ∧
    GMPy_Real_DivMod mpfrInexactDemo (PyVal.mpfr (.finite 1))
        (PyVal.mpfr (.finite 2)) ctxInexactTrap =
      finishReal
        (if (realVal (PyVal.mpfr (.finite 2))).isZero then
          { ctxInexactTrap with divzero := true } else ctxInexactTrap)
        ((mpfrInexactDemo.div_rndd (realVal (PyVal.mpfr (.finite 1)))
            (realVal (PyVal.mpfr (.finite 2)))).2.union
          (mpfrInexactDemo.fms_rnd
            ((mpfrInexactDemo.div_rndd (realVal (PyVal.mpfr (.finite 1)))
              (realVal (PyVal.mpfr (.finite 2)))).1.floorv)
            (realVal (PyVal.mpfr (.finite 2)))
            (realVal (PyVal.mpfr (.finite 1)))).2)
        ((mpfrInexactDemo.div_rndd (realVal (PyVal.mpfr (.finite 1)))
          (realVal (PyVal.mpfr (.finite 2)))).1.floorv)
        ((mpfrInexactDemo.fms_rnd
          ((mpfrInexactDemo.div_rndd (realVal (PyVal.mpfr (.finite 1)))
            (realVal (PyVal.mpfr (.finite 2)))).1.floorv)
          (realVal (PyVal.mpfr (.finite 2)))
          (realVal (PyVal.mpfr (.finite 1)))).1.negv) := by
  have h := real_divmod_flag_merge_priority mpfrInexactDemo
    (PyVal.mpfr (.finite 1)) (PyVal.mpfr (.finite 2)) ctxInexactTrap
    ⟨false, false, true⟩ .nan .nan rfl rfl (by decide) (by decide) (by decide)
    (by decide) (by decide)
  exact ⟨h.2.2.2.1.mpr (by decide), by simpa using h.1.2.2.1, h.2.2.2.2.2⟩

/-- C7 witness: an mpz paired with a non-numeric object shares no layer,
so the slot dispatcher returns the NotImplemented sentinel, while an
integer pair is delegated to the Integer algorithm. -/
theorem tower_dispatch_order_sentinel_witness :
    GMPy_mpz_divmod_fast mpfrExact (PyVal.mpz 3) PyVal.nonNumeric ctx0 =
      ⟨ctx0, .notImpl, 0⟩ ∧
    GMPy_mpz_divmod_fast mpfrExact (PyVal.mpz 6) (PyVal.mpz 4) ctx0 =
      (GMPy_Integer_DivMod (PyVal.mpz 6) (PyVal.mpz 4) ctx0).map .intPair :=
  ⟨((tower_dispatch_order_sentinel mpfrExact (PyVal.mpz 3) PyVal.nonNumeric
      ctx0).2.2.2.2 (by decide)).1,
   ((tower_dispatch_order_sentinel mpfrExact (PyVal.mpz 6) (PyVal.mpz 4)
      ctx0).1 (by decide)).1⟩
